import Mathlib

/-!
Verification of the batch-transfer task (`src/tasks/sendBatchTransfer.ts`).

The task is shallowly embedded: the line-oriented address parser, the
decimal-amount scaler `formatWithDecimals`, the preflight validation, and the
batching/pacing loop are translated to executable Lean definitions.  Effects
are made explicit: the loop produces a trace of `submit`/`wait` events, the
random draws of `Math.random`-based batch sizes and intervals are abstracted
as sequences `Nat → Nat` (constrained to the drawn ranges by hypotheses), and
JavaScript exceptions become `Option`/`Except` values.  The loop is driven by
fuel so that non-termination is expressible.
-/

namespace ClearSync

/-- `const ADDRESS_ZERO = "0x"+'0'.repeat(40)` -/
def ADDRESS_ZERO : String := "0x" ++ String.mk (List.replicate 40 '0')

/-- `const MAX_BATCH_SIZE = 500` -/
def MAX_BATCH_SIZE : Nat := 500

/-- `const DEFAULT_INTERVAL = 10` (minutes) -/
def DEFAULT_INTERVAL : Nat := 10

/-- The character class `[\dA-Fa-f]` of the address regex. -/
def isHexDigitChar (c : Char) : Bool :=
  c.isDigit || ('A' ≤ c && c ≤ 'F') || ('a' ≤ c && c ≤ 'f')

/-- Test of `/^0x[\dA-Fa-f]{40}$/` on a whole line: exactly 42 characters,
starting with `0x`, the remaining 40 in `[\dA-Fa-f]`. -/
def addressRegex (s : String) : Bool :=
  let cs := s.toList
  cs.length == 42 && cs.take 2 == ['0', 'x'] && (cs.drop 2).all isHexDigitChar

/-- `parseAddressesFile`, with the file already split into lines by the
readline interface.  Mirrors the per-line handler: a line failing the regex is
skipped (logged, non-fatal), the zero address is skipped, every other line is
pushed in order. -/
def parseAddressesFile (lines : List String) : List String :=
  match lines with
  | [] => []
  | l :: ls =>
    if !addressRegex l then parseAddressesFile ls
    else if l = ADDRESS_ZERO then parseAddressesFile ls
    else l :: parseAddressesFile ls

/-- Index of the first `'.'`, as in `value.indexOf('.')` (`none` for `-1`). -/
def firstDotIdx : List Char → Option Nat
  | [] => none
  | c :: cs => if c == '.' then some 0 else (firstDotIdx cs).map (· + 1)

/-- `value.replace('.', '')`: JavaScript `String.replace` with a string
pattern removes only the first occurrence. -/
def removeFirstDot : List Char → List Char
  | [] => []
  | c :: cs => if c == '.' then cs else c :: removeFirstDot cs

/-- `formatWithDecimals(value, decimals)`.  `'0'.repeat(n)` throws a
`RangeError` for negative `n`, which happens exactly when the part after the
first `.` is longer than `decimals`; that exception is modelled by `none`. -/
def formatWithDecimals (value : String) (decimals : Nat) : Option String :=
  match firstDotIdx value.toList with
  | none => some (String.mk (value.toList ++ List.replicate decimals '0'))
  | some p =>
    if decimals < value.toList.length - p - 1 then none
    else some (String.mk (removeFirstDot value.toList ++
      List.replicate (decimals - (value.toList.length - p - 1)) '0'))

/-- `ethers.BigNumber.from` on the decimal strings produced here: a non-empty
all-digit string parses to its value, anything else throws (`none`). -/
def parseDecNat (s : String) : Option Nat :=
  let cs := s.toList
  if cs.isEmpty || !cs.all Char.isDigit then none
  else some (cs.foldl (fun acc c => acc * 10 + (c.toNat - 48)) 0)

/-- The "40 a's" test address of the spec (§8), uppercase hex digits. -/
def addrA : String := "0x" ++ String.mk (List.replicate 40 'A')

/-- The "40 b's" test address of the spec (§8). -/
def addrB : String := "0x" ++ String.mk (List.replicate 40 'B')

theorem removeFirstDot_eq_take_drop :
    ∀ (cs : List Char) (p : Nat), firstDotIdx cs = some p →
      removeFirstDot cs = cs.take p ++ cs.drop (p + 1) := by
  intro cs
  induction cs with
  | nil => intro p h; simp [firstDotIdx] at h
  | cons c cs ih =>
    intro p h
    unfold firstDotIdx at h
    by_cases hc : (c == '.') = true
    · rw [if_pos hc] at h
      cases h
      unfold removeFirstDot
      rw [if_pos hc]
      simp
    · rw [if_neg hc] at h
      obtain ⟨q, hq, rfl⟩ := Option.map_eq_some'.mp h
      unfold removeFirstDot
      rw [if_neg hc]
      simp [ih q hq]

/-- C5. For a string with no fractional separator, `formatWithDecimals`
appends `decimals` zero digits; for a string whose first separator sits at
index `p` with fractional length at most `decimals`, it removes the separator
(concatenating the part before the dot with the part after it) and appends
zeros until the fractional part reaches length `decimals`; in particular
`formatWithDecimals "1" 6 = "1000000"` and
`formatWithDecimals "1.5" 6 = "1500000"`. -/
theorem c5_normalize_pads (s : String) (d : Nat) :
    (firstDotIdx s.toList = none →
      formatWithDecimals s d = some (String.mk (s.toList ++ List.replicate d '0'))) ∧
    (∀ p, firstDotIdx s.toList = some p → s.toList.length - p - 1 ≤ d →
      formatWithDecimals s d =
        some (String.mk (s.toList.take p ++ s.toList.drop (p + 1) ++
          List.replicate (d - (s.toList.length - p - 1)) '0'))) ∧
    formatWithDecimals "1" 6 = some "1000000" ∧
    formatWithDecimals "1.5" 6 = some "1500000" := by
  refine ⟨?_, ?_, by decide, by decide⟩
  · intro h
    unfold formatWithDecimals
    split
    · rfl
    · next p heq => rw [h] at heq; cases heq
  · intro p hp hle
    unfold formatWithDecimals
    split
    · next heq => rw [hp] at heq; cases heq
    · next p' heq =>
      rw [hp] at heq
      injection heq with e
      subst e
      rw [if_neg (by omega), removeFirstDot_eq_take_drop s.toList p hp]

/-- C5 witness: the separator case at `s = "1.5"`, `d = 6`. -/
theorem c5_normalize_pads_witness :
    firstDotIdx ("1.5").toList = some 1 ∧
    ("1.5").toList.length - 1 - 1 ≤ 6 ∧
    formatWithDecimals "1.5" 6 =
      some (String.mk (("1.5").toList.take 1 ++ ("1.5").toList.drop 2 ++
        List.replicate (6 - (("1.5").toList.length - 1 - 1)) '0')) :=
  ⟨by decide, by decide, (c5_normalize_pads "1.5" 6).2.1 1 (by decide) (by decide)⟩

/-- C6 counterexample: the claim `normalize("0.000001", 6) = "000001"` is
false on the code: the leading integer-part digit `0` is kept, so the result
is the seven-character string `"0000001"`. -/
theorem c6_counterexample :
    formatWithDecimals "0.000001" 6 ≠ some "000001" := by decide

/-- C6 amended: `formatWithDecimals "0.000001" 6` returns `"0000001"` — the
separator is removed and nothing else changes, so the `0` of the integer part
is preserved; the string still denotes the base-unit value 1. -/
theorem c6_amended :
    formatWithDecimals "0.000001" 6 = some "0000001" ∧
    parseDecNat "0000001" = some 1 := by decide

/-- C7. Whenever the part after the first separator is strictly longer than
`decimals`, `formatWithDecimals` fails (the `'0'.repeat` receives a negative
count and throws): it never returns a string for such an input. -/
theorem c7_long_fraction_fails (s : String) (d p : Nat)
    (hp : firstDotIdx s.toList = some p)
    (hlong : d < s.toList.length - p - 1) :
    formatWithDecimals s d = none := by
  unfold formatWithDecimals
  split
  · next heq => rw [hp] at heq; cases heq
  · next p' heq =>
    rw [hp] at heq
    injection heq with e
    subst e
    rw [if_pos hlong]

/-- C7 witness: `"1.234"` with `decimals = 2` is rejected. -/
theorem c7_long_fraction_fails_witness :
    firstDotIdx ("1.234").toList = some 1 ∧
    2 < ("1.234").toList.length - 1 - 1 ∧
    formatWithDecimals "1.234" 2 = none :=
  ⟨by decide, by decide, c7_long_fraction_fails "1.234" 2 1 (by decide) (by decide)⟩

/-- C8. The parser keeps exactly the lines matching the address regex other
than the zero address, in input order and without deduplication (it is the
order-preserving filter by that predicate, so duplicates are kept and invalid
lines are skipped without aborting); on the spec's four-line example it
returns the two well-formed non-zero addresses in input order. -/
theorem c8_parser_filters (lines : List String) :
    parseAddressesFile lines =
      lines.filter (fun a => addressRegex a && !(a == ADDRESS_ZERO)) ∧
    parseAddressesFile [addrA, "not-an-address", ADDRESS_ZERO, addrB] =
      [addrA, addrB] := by
  constructor
  · induction lines with
    | nil => simp [parseAddressesFile]
    | cons l ls ih =>
      by_cases hr : addressRegex l
      · by_cases hz : l = ADDRESS_ZERO
        · simp [parseAddressesFile, hr, hz, ih]
        · simp [parseAddressesFile, hr, hz, ih]
      · simp [parseAddressesFile, hr, ih]
  · decide

/-- Observable effects of the scheduler loop: one `submit` per
`BatchTransfer.batchTransfer` call (token used, slice of addresses, base-unit
amount string) and one `wait` per `setTimeout` pacing delay (minutes drawn). -/
inductive Event where
  | submit (token : String) (batch : List String) (amount : String)
  | wait (minutes : Nat)
deriving DecidableEq

/-- Lines 103-106: the drawn `batchSize`, reassigned to the remainder when
`i + batchSize > addresses.length`. -/
def clipSize (len i d : Nat) : Nat := if len < i + d then len - i else d

/-- The `while (i < addresses.length)` loop of the task.  `sizeDraws k` and
`intDraws k` are the values of the `Math.floor(Math.random() * (max - min + 1)
+ min)` draws of iteration `k` (their ranges are hypotheses of the theorems,
since `Math.random` is external).  Each iteration clips the drawn size to the
remainder, slices `[i, i+batchSize)`, submits, waits, and advances the cursor.
The loop is driven by `fuel`; `none` means the fuel was exhausted before the
cursor reached the end, and `some (events, cursor)` a completed run. -/
def runLoop (addresses : List String) (token amountFormatted : String)
    (sizeDraws intDraws : Nat → Nat) :
    Nat → Nat → Nat → Option (List Event × Nat)
  | 0, _, i => if i < addresses.length then none else some ([], i)
  | fuel + 1, k, i =>
    if i < addresses.length then
      match runLoop addresses token amountFormatted sizeDraws intDraws fuel (k + 1)
          (i + clipSize addresses.length i (sizeDraws k)) with
      | none => none
      | some (evs, iFinal) =>
        some (Event.submit token
            ((addresses.drop i).take (clipSize addresses.length i (sizeDraws k)))
            amountFormatted ::
          Event.wait (intDraws k) :: evs, iFinal)
    else some ([], i)

/-- The batches submitted along a trace, in submission order. -/
def submittedBatches : List Event → List (List String)
  | [] => []
  | Event.submit _ b _ :: rest => b :: submittedBatches rest
  | Event.wait _ :: rest => submittedBatches rest

/-- The three fail-fast configuration checks (lines 52-62), after the `?? 500`
and `?? 10` defaults were substituted. -/
def validateConfig (minB maxB minI maxI : Nat) : Bool :=
  !(maxB < minB) && !(maxI < minI) && !(MAX_BATCH_SIZE < maxB)

/-- Whether the event at index `j` is a batch submission. -/
def isSubmitAt (evs : List Event) (j : Nat) : Bool :=
  match evs.get? j with
  | some (Event.submit _ _ _) => true
  | _ => false

/-- Whether the event at index `j` is a pacing delay. -/
def isWaitAt (evs : List Event) (j : Nat) : Bool :=
  match evs.get? j with
  | some (Event.wait _) => true
  | _ => false

/-- The pacing discipline claimed by the spec: every pacing delay sits
strictly between two batch submissions (immediately preceded and immediately
followed by one), so in particular no delay occurs after the final batch. -/
def waitsStrictlyBetween (evs : List Event) : Bool :=
  (List.range evs.length).all fun j =>
    !isWaitAt evs j || (j != 0 && isSubmitAt evs (j - 1) && isSubmitAt evs (j + 1))

/-- The pacing discipline the code actually implements: the trace is a
concatenation of submit-then-wait pairs — every wait is immediately preceded
by a submission and every submission, the final one included, is immediately
followed by a pacing delay. -/
def submitWaitPairs : List Event → Bool
  | [] => true
  | Event.submit _ _ _ :: Event.wait _ :: rest => submitWaitPairs rest
  | _ => false

theorem clipSize_le_rem (len i d : Nat) : clipSize len i d ≤ len - i := by
  unfold clipSize
  split <;> omega

theorem add_clipSize_le (len i d : Nat) (h : i ≤ len) : i + clipSize len i d ≤ len := by
  have := clipSize_le_rem len i d
  omega

theorem clipSize_pos (len i d : Nat) (hi : i < len) (hd : 1 ≤ d) :
    1 ≤ clipSize len i d := by
  unfold clipSize
  split <;> omega

theorem clipSize_cases (len i d : Nat) :
    clipSize len i d = d ∨ (clipSize len i d = len - i ∧ len < i + d) := by
  unfold clipSize
  split
  · right; omega
  · left; rfl

theorem runLoop_done (addresses : List String) (token amt : String)
    (sizeDraws intDraws : Nat → Nat) (fuel k i : Nat)
    (h : ¬ i < addresses.length) :
    runLoop addresses token amt sizeDraws intDraws fuel k i = some ([], i) := by
  cases fuel with
  | zero => simp [runLoop, h]
  | succ fuel => simp [runLoop, h]

/-- A completed run from cursor `i` covers exactly the suffix of the
recipient list from `i` on: the submitted batches concatenate to it. -/
theorem runLoop_join (addresses : List String) (token amt : String)
    (sizeDraws intDraws : Nat → Nat) :
    ∀ (fuel k i : Nat) (evs : List Event) (iFinal : Nat),
      i ≤ addresses.length →
      runLoop addresses token amt sizeDraws intDraws fuel k i = some (evs, iFinal) →
      (submittedBatches evs).flatten = addresses.drop i := by
  intro fuel
  induction fuel with
  | zero =>
    intro k i evs iFinal hle hrun
    unfold runLoop at hrun
    by_cases h : i < addresses.length
    · rw [if_pos h] at hrun; cases hrun
    · rw [if_neg h] at hrun
      simp only [Option.some.injEq, Prod.mk.injEq] at hrun
      obtain ⟨rfl, rfl⟩ := hrun
      have hi : i = addresses.length := by omega
      subst hi
      simp [submittedBatches]
  | succ fuel ih =>
    intro k i evs iFinal hle hrun
    unfold runLoop at hrun
    by_cases h : i < addresses.length
    · rw [if_pos h] at hrun
      cases hrec : runLoop addresses token amt sizeDraws intDraws fuel (k + 1)
          (i + clipSize addresses.length i (sizeDraws k)) with
      | none => rw [hrec] at hrun; cases hrun
      | some r =>
        obtain ⟨evs', iF'⟩ := r
        rw [hrec] at hrun
        simp only [Option.some.injEq, Prod.mk.injEq] at hrun
        obtain ⟨rfl, rfl⟩ := hrun
        have hIH := ih (k + 1) (i + clipSize addresses.length i (sizeDraws k)) evs' iF'
          (add_clipSize_le addresses.length i (sizeDraws k) hle) hrec
        simp only [submittedBatches, List.flatten_cons]
        rw [hIH, ← List.drop_drop, List.take_append_drop]
    · rw [if_neg h] at hrun
      simp only [Option.some.injEq, Prod.mk.injEq] at hrun
      obtain ⟨rfl, rfl⟩ := hrun
      have hi : i = addresses.length := by omega
      subst hi
      simp [submittedBatches]

/-- With every drawn batch size positive, fuel equal to the recipient count
suffices and the loop ends with the cursor on the recipient count. -/
theorem runLoop_terminates (addresses : List String) (token amt : String)
    (sizeDraws intDraws : Nat → Nat) (hpos : ∀ j, 1 ≤ sizeDraws j) :
    ∀ (fuel k i : Nat), i ≤ addresses.length → addresses.length - i ≤ fuel →
      ∃ evs, runLoop addresses token amt sizeDraws intDraws fuel k i =
        some (evs, addresses.length) := by
  intro fuel
  induction fuel with
  | zero =>
    intro k i hle hfuel
    have hi : i = addresses.length := by omega
    subst hi
    exact ⟨[], runLoop_done _ _ _ _ _ _ _ _ (Nat.lt_irrefl _)⟩
  | succ fuel ih =>
    intro k i hle hfuel
    by_cases h : i < addresses.length
    · have hclip := clipSize_pos addresses.length i (sizeDraws k) h (hpos k)
      have hle' := add_clipSize_le addresses.length i (sizeDraws k) hle
      obtain ⟨evs', hrec⟩ :=
        ih (k + 1) (i + clipSize addresses.length i (sizeDraws k)) hle' (by omega)
      refine ⟨Event.submit token
          ((addresses.drop i).take (clipSize addresses.length i (sizeDraws k))) amt ::
        Event.wait (intDraws k) :: evs', ?_⟩
      unfold runLoop
      rw [if_pos h, hrec]
    · have hi : i = addresses.length := by omega
      subst hi
      exact ⟨[], runLoop_done _ _ _ _ _ _ _ _ (Nat.lt_irrefl _)⟩

/-- With every drawn batch size zero (the `minBatchSize = maxBatchSize = 0`
configuration, which passes validation), the cursor never advances: no amount
of fuel completes the run once a recipient remains. -/
theorem runLoop_zero_draws_stuck (addresses : List String) (token amt : String)
    (sizeDraws intDraws : Nat → Nat) (hzero : ∀ j, sizeDraws j = 0) :
    ∀ (fuel k i : Nat), i < addresses.length →
      runLoop addresses token amt sizeDraws intDraws fuel k i = none := by
  intro fuel
  induction fuel with
  | zero => intro k i h; simp [runLoop, h]
  | succ fuel ih =>
    intro k i h
    have hclip : clipSize addresses.length i (sizeDraws k) = 0 := by
      unfold clipSize
      rw [hzero k, if_neg (by omega)]
    unfold runLoop
    rw [if_pos h, hclip, ih (k + 1) (i + 0) (by omega)]

/-- Every completed run's trace is a concatenation of submit-then-wait
pairs: the pacing delay follows every submission, the final one included. -/
theorem runLoop_pairs (addresses : List String) (token amt : String)
    (sizeDraws intDraws : Nat → Nat) :
    ∀ (fuel k i : Nat) (evs : List Event) (iFinal : Nat),
      runLoop addresses token amt sizeDraws intDraws fuel k i = some (evs, iFinal) →
      submitWaitPairs evs = true := by
  intro fuel
  induction fuel with
  | zero =>
    intro k i evs iF hrun
    unfold runLoop at hrun
    by_cases h : i < addresses.length
    · rw [if_pos h] at hrun; cases hrun
    · rw [if_neg h] at hrun
      simp only [Option.some.injEq, Prod.mk.injEq] at hrun
      obtain ⟨rfl, rfl⟩ := hrun
      rfl
  | succ fuel ih =>
    intro k i evs iF hrun
    unfold runLoop at hrun
    by_cases h : i < addresses.length
    · rw [if_pos h] at hrun
      cases hrec : runLoop addresses token amt sizeDraws intDraws fuel (k + 1)
          (i + clipSize addresses.length i (sizeDraws k)) with
      | none => rw [hrec] at hrun; cases hrun
      | some r =>
        obtain ⟨evs', iF'⟩ := r
        rw [hrec] at hrun
        simp only [Option.some.injEq, Prod.mk.injEq] at hrun
        obtain ⟨rfl, rfl⟩ := hrun
        exact ih (k + 1) _ evs' iF' hrec
    · rw [if_neg h] at hrun
      simp only [Option.some.injEq, Prod.mk.injEq] at hrun
      obtain ⟨rfl, rfl⟩ := hrun
      rfl

/-- Every batch of a completed run other than the last has the unclipped
drawn size, so its length lies in the drawn range `[minB, maxB]`. -/
theorem runLoop_nonfinal_bounds (addresses : List String) (token amt : String)
    (minB maxB : Nat) (sizeDraws intDraws : Nat → Nat)
    (hdraws : ∀ j, minB ≤ sizeDraws j ∧ sizeDraws j ≤ maxB) :
    ∀ (fuel k i : Nat) (evs : List Event) (iFinal : Nat),
      i ≤ addresses.length →
      runLoop addresses token amt sizeDraws intDraws fuel k i = some (evs, iFinal) →
      ∀ b ∈ (submittedBatches evs).dropLast, minB ≤ b.length ∧ b.length ≤ maxB := by
  intro fuel
  induction fuel with
  | zero =>
    intro k i evs iF hle hrun
    unfold runLoop at hrun
    by_cases h : i < addresses.length
    · rw [if_pos h] at hrun; cases hrun
    · rw [if_neg h] at hrun
      simp only [Option.some.injEq, Prod.mk.injEq] at hrun
      obtain ⟨rfl, rfl⟩ := hrun
      intro b hb
      simp [submittedBatches] at hb
  | succ fuel ih =>
    intro k i evs iF hle hrun
    unfold runLoop at hrun
    by_cases h : i < addresses.length
    · rw [if_pos h] at hrun
      cases hrec : runLoop addresses token amt sizeDraws intDraws fuel (k + 1)
          (i + clipSize addresses.length i (sizeDraws k)) with
      | none => rw [hrec] at hrun; cases hrun
      | some r =>
        obtain ⟨evs', iF'⟩ := r
        rw [hrec] at hrun
        simp only [Option.some.injEq, Prod.mk.injEq] at hrun
        obtain ⟨rfl, rfl⟩ := hrun
        cases hSB : submittedBatches evs' with
        | nil =>
          intro b hb
          simp [submittedBatches, hSB] at hb
        | cons x xs =>
          rcases clipSize_cases addresses.length i (sizeDraws k) with hcs | ⟨hcs, hlt⟩
          · intro b hb
            simp only [submittedBatches, hSB, List.dropLast_cons₂, List.mem_cons] at hb
            rcases hb with rfl | hb
            · have h1 := clipSize_le_rem addresses.length i (sizeDraws k)
              have h2 := hdraws k
              refine ⟨?_, ?_⟩ <;> (simp only [List.length_take, List.length_drop]; omega)
            · have hIH := ih (k + 1) (i + clipSize addresses.length i (sizeDraws k)) evs' iF'
                (add_clipSize_le addresses.length i (sizeDraws k) hle) hrec
              apply hIH
              rw [hSB]
              exact hb
          · exfalso
            have hi' : i + clipSize addresses.length i (sizeDraws k) = addresses.length := by
              omega
            rw [hi', runLoop_done addresses token amt sizeDraws intDraws fuel (k + 1)
              addresses.length (Nat.lt_irrefl _)] at hrec
            simp only [Option.some.injEq, Prod.mk.injEq] at hrec
            obtain ⟨rfl, rfl⟩ := hrec
            simp [submittedBatches] at hSB
    · rw [if_neg h] at hrun
      simp only [Option.some.injEq, Prod.mk.injEq] at hrun
      obtain ⟨rfl, rfl⟩ := hrun
      intro b hb
      simp [submittedBatches] at hb

theorem ceil_div_step (mrem K : Nat) (hK : 1 ≤ K) :
    (mrem + K + K - 1) / K = (mrem + K - 1) / K + 1 := by
  have h1 : mrem + K + K - 1 = (mrem + K - 1) + K := by omega
  rw [h1, Nat.add_div_right _ (by omega)]

/-- With every draw equal to the same `K ≥ 1` (the
`minBatchSize = maxBatchSize = K` configuration), a completed run from cursor
`i < n` submits `⌈(n - i) / K⌉` batches, and the last one has size
`(n - i) mod K` when the remainder is non-zero and `K` otherwise. -/
theorem runLoop_constant_draws (addresses : List String) (token amt : String)
    (K : Nat) (sizeDraws intDraws : Nat → Nat)
    (hK : 1 ≤ K) (hdraws : ∀ j, sizeDraws j = K) :
    ∀ (fuel k i : Nat) (evs : List Event) (iFinal : Nat),
      i < addresses.length →
      runLoop addresses token amt sizeDraws intDraws fuel k i = some (evs, iFinal) →
      (submittedBatches evs).length = (addresses.length - i + K - 1) / K ∧
      ∃ b, (submittedBatches evs).getLast? = some b ∧
        b.length = (if (addresses.length - i) % K = 0 then K
          else (addresses.length - i) % K) := by
  intro fuel
  induction fuel with
  | zero =>
    intro k i evs iF h hrun
    unfold runLoop at hrun
    rw [if_pos h] at hrun
    cases hrun
  | succ fuel ih =>
    intro k i evs iF h hrun
    unfold runLoop at hrun
    rw [if_pos h, hdraws k] at hrun
    by_cases hc : addresses.length < i + K
    · have hclip : clipSize addresses.length i K = addresses.length - i := by
        unfold clipSize
        rw [if_pos hc]
      rw [hclip] at hrun
      have hi' : i + (addresses.length - i) = addresses.length := by omega
      rw [hi', runLoop_done addresses token amt sizeDraws intDraws fuel (k + 1)
        addresses.length (Nat.lt_irrefl _)] at hrun
      simp only [Option.some.injEq, Prod.mk.injEq] at hrun
      obtain ⟨rfl, rfl⟩ := hrun
      have hm1 : 1 ≤ addresses.length - i := by omega
      have hmK : addresses.length - i < K := by omega
      constructor
      · have hdiv : (addresses.length - i + K - 1) / K = 1 := by
          apply Nat.div_eq_of_lt_le <;> omega
        simp only [submittedBatches, List.length_cons, List.length_nil]
        rw [hdiv]
      · refine ⟨(addresses.drop i).take (addresses.length - i), ?_, ?_⟩
        · simp [submittedBatches]
        · have hmod : (addresses.length - i) % K = addresses.length - i :=
            Nat.mod_eq_of_lt hmK
          simp only [List.length_take, List.length_drop]
          rw [hmod, if_neg (by omega)]
          omega
    · have hclip : clipSize addresses.length i K = K := by
        unfold clipSize
        rw [if_neg hc]
      rw [hclip] at hrun
      by_cases h2 : i + K < addresses.length
      · cases hrec : runLoop addresses token amt sizeDraws intDraws fuel (k + 1) (i + K) with
        | none => rw [hrec] at hrun; cases hrun
        | some r =>
          obtain ⟨evs', iF'⟩ := r
          rw [hrec] at hrun
          simp only [Option.some.injEq, Prod.mk.injEq] at hrun
          obtain ⟨rfl, rfl⟩ := hrun
          obtain ⟨hcount, b', hblast, hblen⟩ := ih (k + 1) (i + K) evs' iF' h2 hrec
          have hmrw : addresses.length - i = (addresses.length - (i + K)) + K := by omega
          have hSBne : submittedBatches evs' ≠ [] := by
            intro hnil
            rw [hnil] at hblast
            simp at hblast
          constructor
          · simp only [submittedBatches, List.length_cons]
            rw [hcount, hmrw, ceil_div_step _ _ hK]
          · cases hSB' : submittedBatches evs' with
            | nil => exact absurd hSB' hSBne
            | cons x xs =>
              refine ⟨b', ?_, ?_⟩
              · simp only [submittedBatches, hSB', List.getLast?_cons_cons]
                rw [← hSB', hblast]
              · rw [hblen, hmrw, Nat.add_mod_right]
      · have hiK : i + K = addresses.length := by omega
        rw [hiK, runLoop_done addresses token amt sizeDraws intDraws fuel (k + 1)
          addresses.length (Nat.lt_irrefl _)] at hrun
        simp only [Option.some.injEq, Prod.mk.injEq] at hrun
        obtain ⟨rfl, rfl⟩ := hrun
        have hm : addresses.length - i = K := by omega
        constructor
        · have hdiv : (addresses.length - i + K - 1) / K = 1 := by
            apply Nat.div_eq_of_lt_le <;> omega
          simp only [submittedBatches, List.length_cons, List.length_nil]
          rw [hdiv]
        · refine ⟨(addresses.drop i).take K, ?_, ?_⟩
          · simp [submittedBatches]
          · simp only [List.length_take, List.length_drop]
            rw [hm]
            simp [Nat.mod_self]

/-- A completed run from cursor 0 covers the whole recipient list: the
submitted batches concatenate to it, and their sizes sum to its length. -/
theorem runLoop_covers (addresses : List String) (token amt : String)
    (sizeDraws intDraws : Nat → Nat) (fuel : Nat) (evs : List Event) (iFinal : Nat)
    (hrun : runLoop addresses token amt sizeDraws intDraws fuel 0 0 = some (evs, iFinal)) :
    (submittedBatches evs).flatten = addresses ∧
    ((submittedBatches evs).map List.length).sum = addresses.length := by
  have hj := runLoop_join addresses token amt sizeDraws intDraws fuel 0 0 evs iFinal
    (Nat.zero_le _) hrun
  rw [List.drop_zero] at hj
  refine ⟨hj, ?_⟩
  rw [← hj]
  exact (List.length_flatten _).symm

/-- C1. For every configuration passing validation, every recipient list and
every in-range draw sequence, the batches of one complete run partition the
recipient list: concatenated in submission order they are exactly the list
(so the contiguous slices cover every recipient once, in original order,
without gaps or overlaps), and the batch sizes sum to the recipient count. -/
theorem c1_run_partitions (addresses : List String) (token amt : String)
    (minB maxB minI maxI : Nat) (sizeDraws intDraws : Nat → Nat)
    (fuel : Nat) (evs : List Event) (iFinal : Nat)
    (hval : validateConfig minB maxB minI maxI = true)
    (hdraws : ∀ j, minB ≤ sizeDraws j ∧ sizeDraws j ≤ maxB)
    (hrun : runLoop addresses token amt sizeDraws intDraws fuel 0 0 = some (evs, iFinal)) :
    (submittedBatches evs).flatten = addresses ∧
    ((submittedBatches evs).map List.length).sum = addresses.length :=
  runLoop_covers addresses token amt sizeDraws intDraws fuel evs iFinal hrun

/-- C1 witness: a two-recipient run with `minBatchSize = maxBatchSize = 2`. -/
theorem c1_run_partitions_witness :
    validateConfig 2 2 DEFAULT_INTERVAL DEFAULT_INTERVAL = true ∧
    runLoop [addrA, addrB] ADDRESS_ZERO "1000000" (fun _ => 2)
        (fun _ => DEFAULT_INTERVAL) 1 0 0 =
      some ([Event.submit ADDRESS_ZERO [addrA, addrB] "1000000",
        Event.wait DEFAULT_INTERVAL], 2) ∧
    ((submittedBatches [Event.submit ADDRESS_ZERO [addrA, addrB] "1000000",
        Event.wait DEFAULT_INTERVAL]).flatten = [addrA, addrB] ∧
      ((submittedBatches [Event.submit ADDRESS_ZERO [addrA, addrB] "1000000",
        Event.wait DEFAULT_INTERVAL]).map List.length).sum =
        ([addrA, addrB] : List String).length) :=
  ⟨by decide, by decide,
    c1_run_partitions [addrA, addrB] ADDRESS_ZERO "1000000" 2 2 DEFAULT_INTERVAL
      DEFAULT_INTERVAL (fun _ => 2) (fun _ => DEFAULT_INTERVAL) 1 _ 2 (by decide)
      (fun _ => ⟨Nat.le_refl 2, Nat.le_refl 2⟩) (by decide)⟩

/-- C2. For a completed run of a validated configuration: every batch except
possibly the final one has its size in `[minB, maxB]`; the final batch's size
is exactly the number of recipients left over by the earlier batches; and
when `minB = maxB = K` with `K` not dividing the recipient count `n`, the
final batch has size `n mod K` and the number of batches is
`⌈n / K⌉ = (n + K - 1) / K`. -/
theorem c2_batch_sizes (addresses : List String) (token amt : String)
    (minB maxB minI maxI : Nat) (sizeDraws intDraws : Nat → Nat)
    (fuel : Nat) (evs : List Event) (iFinal : Nat)
    (hval : validateConfig minB maxB minI maxI = true)
    (hdraws : ∀ j, minB ≤ sizeDraws j ∧ sizeDraws j ≤ maxB)
    (hrun : runLoop addresses token amt sizeDraws intDraws fuel 0 0 = some (evs, iFinal)) :
    (∀ b ∈ (submittedBatches evs).dropLast, minB ≤ b.length ∧ b.length ≤ maxB) ∧
    (∀ b, (submittedBatches evs).getLast? = some b →
      b.length =
        addresses.length - (((submittedBatches evs).dropLast).map List.length).sum) ∧
    (∀ K, minB = K → maxB = K → ¬ K ∣ addresses.length →
      (∃ b, (submittedBatches evs).getLast? = some b ∧
        b.length = addresses.length % K) ∧
      (submittedBatches evs).length = (addresses.length + K - 1) / K) := by
  refine ⟨runLoop_nonfinal_bounds addresses token amt minB maxB sizeDraws intDraws
    hdraws fuel 0 0 evs iFinal (Nat.zero_le _) hrun, ?_, ?_⟩
  · intro b hlast
    have hsum := (runLoop_covers addresses token amt sizeDraws intDraws fuel evs
      iFinal hrun).2
    have hne : submittedBatches evs ≠ [] := by
      intro hnil
      rw [hnil] at hlast
      simp at hlast
    have hgl : (submittedBatches evs).getLast hne = b := by
      rw [List.getLast?_eq_getLast _ hne] at hlast
      injection hlast
    have hsplit : (submittedBatches evs).dropLast ++ [b] = submittedBatches evs := by
      rw [← hgl]
      exact List.dropLast_append_getLast hne
    rw [← hsplit] at hsum
    simp only [List.map_append, List.sum_append, List.map_cons, List.map_nil,
      List.sum_cons, List.sum_nil] at hsum
    omega
  · intro K hK1 hK2 hndvd
    have hconst : ∀ j, sizeDraws j = K :=
      fun j => Nat.le_antisymm (hK2 ▸ (hdraws j).2) (hK1 ▸ (hdraws j).1)
    rcases Nat.eq_zero_or_pos addresses.length with hlen | hlen
    · exact absurd (hlen ▸ Dvd.intro 0 rfl) hndvd
    rcases Nat.eq_zero_or_pos K with hB | hB
    · exfalso
      subst hB
      rw [runLoop_zero_draws_stuck addresses token amt sizeDraws intDraws hconst
        fuel 0 0 hlen] at hrun
      cases hrun
    · have hmod : addresses.length % K ≠ 0 := by
        intro h0
        exact hndvd (Nat.dvd_iff_mod_eq_zero.mpr h0)
      obtain ⟨hcount, b, hlast, hblen⟩ := runLoop_constant_draws addresses token amt
        K sizeDraws intDraws hB hconst fuel 0 0 evs iFinal hlen hrun
      rw [Nat.sub_zero] at hcount hblen
      rw [if_neg hmod] at hblen
      exact ⟨⟨b, hlast, hblen⟩, hcount⟩

/-- C2 witness: three recipients, `minBatchSize = maxBatchSize = 2`: batches
of sizes 2 and 1, the final size is `3 mod 2 = 1`, and there are
`⌈3 / 2⌉ = 2` batches. -/
theorem c2_batch_sizes_witness :
    validateConfig 2 2 DEFAULT_INTERVAL DEFAULT_INTERVAL = true ∧
    runLoop [addrA, addrB, ADDRESS_ZERO] ADDRESS_ZERO "7" (fun _ => 2)
        (fun _ => DEFAULT_INTERVAL) 2 0 0 =
      some ([Event.submit ADDRESS_ZERO [addrA, addrB] "7", Event.wait DEFAULT_INTERVAL,
        Event.submit ADDRESS_ZERO [ADDRESS_ZERO] "7", Event.wait DEFAULT_INTERVAL], 3) ∧
    ((∀ b ∈ (submittedBatches [Event.submit ADDRESS_ZERO [addrA, addrB] "7",
        Event.wait DEFAULT_INTERVAL, Event.submit ADDRESS_ZERO [ADDRESS_ZERO] "7",
        Event.wait DEFAULT_INTERVAL]).dropLast, 2 ≤ b.length ∧ b.length ≤ 2) ∧
      (∀ b, (submittedBatches [Event.submit ADDRESS_ZERO [addrA, addrB] "7",
        Event.wait DEFAULT_INTERVAL, Event.submit ADDRESS_ZERO [ADDRESS_ZERO] "7",
        Event.wait DEFAULT_INTERVAL]).getLast? = some b →
        b.length = ([addrA, addrB, ADDRESS_ZERO] : List String).length -
          (((submittedBatches [Event.submit ADDRESS_ZERO [addrA, addrB] "7",
            Event.wait DEFAULT_INTERVAL, Event.submit ADDRESS_ZERO [ADDRESS_ZERO] "7",
            Event.wait DEFAULT_INTERVAL]).dropLast).map List.length).sum) ∧
      (∀ K, 2 = K → 2 = K → ¬ K ∣ ([addrA, addrB, ADDRESS_ZERO] : List String).length →
        (∃ b, (submittedBatches [Event.submit ADDRESS_ZERO [addrA, addrB] "7",
          Event.wait DEFAULT_INTERVAL, Event.submit ADDRESS_ZERO [ADDRESS_ZERO] "7",
          Event.wait DEFAULT_INTERVAL]).getLast? = some b ∧
          b.length = ([addrA, addrB, ADDRESS_ZERO] : List String).length % K) ∧
        (submittedBatches [Event.submit ADDRESS_ZERO [addrA, addrB] "7",
          Event.wait DEFAULT_INTERVAL, Event.submit ADDRESS_ZERO [ADDRESS_ZERO] "7",
          Event.wait DEFAULT_INTERVAL]).length =
          (([addrA, addrB, ADDRESS_ZERO] : List String).length + K - 1) / K)) :=
  ⟨by decide, by decide,
    c2_batch_sizes [addrA, addrB, ADDRESS_ZERO] ADDRESS_ZERO "7" 2 2 DEFAULT_INTERVAL
      DEFAULT_INTERVAL (fun _ => 2) (fun _ => DEFAULT_INTERVAL) 2 _ 3 (by decide)
      (fun _ => ⟨Nat.le_refl 2, Nat.le_refl 2⟩) (by decide)⟩

/-- C9 counterexample: `minBatchSize = maxBatchSize = 0` passes all three
validation checks, yet with one recipient the loop never terminates — the
drawn size is always 0, the cursor never advances, and no amount of fuel
completes the run.  So "for every configuration passing validation the
scheduler loop terminates" is false on the code. -/
theorem c9_counterexample :
    validateConfig 0 0 DEFAULT_INTERVAL DEFAULT_INTERVAL = true ∧
    (∀ j : Nat, 0 ≤ (fun _ : Nat => 0) j ∧ (fun _ : Nat => 0) j ≤ 0) ∧
    ¬ ∃ (fuel : Nat) (r : List Event × Nat),
      runLoop [addrA] ADDRESS_ZERO "1" (fun _ => 0) (fun _ => DEFAULT_INTERVAL)
        fuel 0 0 = some r := by
  refine ⟨by decide, fun j => ⟨Nat.zero_le _, Nat.le_refl 0⟩, ?_⟩
  rintro ⟨fuel, r, hr⟩
  rw [runLoop_zero_draws_stuck [addrA] ADDRESS_ZERO "1" (fun _ => 0)
    (fun _ => DEFAULT_INTERVAL) (fun _ => rfl) fuel 0 0 (by decide)] at hr
  cases hr

/-- C9 amended: for every configuration passing the validator's checks *and
with `minBatchSize ≥ 1`*, and every finite recipient list, the scheduler loop
terminates — fuel equal to the recipient count suffices — ending with the
cursor equal to the recipient count.  (Validation alone does not rule out
`minBatchSize = 0`, where the cursor stalls; see the counterexample.) -/
theorem c9_amended_terminates (addresses : List String) (token amt : String)
    (minB maxB minI maxI : Nat) (sizeDraws intDraws : Nat → Nat)
    (hval : validateConfig minB maxB minI maxI = true)
    (hmin : 1 ≤ minB)
    (hdraws : ∀ j, minB ≤ sizeDraws j ∧ sizeDraws j ≤ maxB) :
    ∃ evs, runLoop addresses token amt sizeDraws intDraws addresses.length 0 0 =
      some (evs, addresses.length) :=
  runLoop_terminates addresses token amt sizeDraws intDraws
    (fun j => Nat.le_trans hmin (hdraws j).1) addresses.length 0 0
    (Nat.zero_le _) (by omega)

/-- C9 witness: one recipient, `minBatchSize = maxBatchSize = 1`. -/
theorem c9_amended_terminates_witness :
    validateConfig 1 1 DEFAULT_INTERVAL DEFAULT_INTERVAL = true ∧
    (∃ evs, runLoop [addrA] ADDRESS_ZERO "1" (fun _ => 1) (fun _ => DEFAULT_INTERVAL)
      (([addrA] : List String).length) 0 0 = some (evs, ([addrA] : List String).length)) :=
  ⟨by decide,
    c9_amended_terminates [addrA] ADDRESS_ZERO "1" 1 1 DEFAULT_INTERVAL DEFAULT_INTERVAL
      (fun _ => 1) (fun _ => DEFAULT_INTERVAL) (by decide) (Nat.le_refl 1)
      (fun _ => ⟨Nat.le_refl 1, Nat.le_refl 1⟩)⟩

/-- C10 counterexample: the claim that no pacing delay occurs after the final
batch is false on the code — in a completed single-batch run the trace is
`[submit, wait]`: the `setTimeout` delay runs after the final (only) batch,
so the "every wait strictly between two submissions" discipline fails. -/
theorem c10_counterexample :
    validateConfig 1 1 DEFAULT_INTERVAL DEFAULT_INTERVAL = true ∧
    runLoop [addrA] ADDRESS_ZERO "1" (fun _ => 1) (fun _ => DEFAULT_INTERVAL) 1 0 0 =
      some ([Event.submit ADDRESS_ZERO [addrA] "1", Event.wait DEFAULT_INTERVAL], 1) ∧
    waitsStrictlyBetween
      [Event.submit ADDRESS_ZERO [addrA] "1", Event.wait DEFAULT_INTERVAL] = false :=
  ⟨by decide, by decide, by decide⟩

/-- C10 amended: in every completed run the trace is a concatenation of
submit-then-wait pairs: every pacing delay is immediately preceded by a batch
submission, and every batch submission — the final one included — is
immediately followed by a pacing delay (the delay also runs after the last
batch, contrary to the original claim). -/
theorem c10_amended_pairs (addresses : List String) (token amt : String)
    (minB maxB minI maxI : Nat) (sizeDraws intDraws : Nat → Nat)
    (fuel k i : Nat) (evs : List Event) (iFinal : Nat)
    (hval : validateConfig minB maxB minI maxI = true)
    (hdraws : ∀ j, minB ≤ sizeDraws j ∧ sizeDraws j ≤ maxB)
    (hrun : runLoop addresses token amt sizeDraws intDraws fuel k i = some (evs, iFinal)) :
    submitWaitPairs evs = true :=
  runLoop_pairs addresses token amt sizeDraws intDraws fuel k i evs iFinal hrun

/-- C10 witness: a two-batch run; each submit is followed by a wait. -/
theorem c10_amended_pairs_witness :
    runLoop [addrA, addrB] ADDRESS_ZERO "1" (fun _ => 1) (fun _ => DEFAULT_INTERVAL)
        2 0 0 =
      some ([Event.submit ADDRESS_ZERO [addrA] "1", Event.wait DEFAULT_INTERVAL,
        Event.submit ADDRESS_ZERO [addrB] "1", Event.wait DEFAULT_INTERVAL], 2) ∧
    submitWaitPairs [Event.submit ADDRESS_ZERO [addrA] "1", Event.wait DEFAULT_INTERVAL,
      Event.submit ADDRESS_ZERO [addrB] "1", Event.wait DEFAULT_INTERVAL] = true :=
  ⟨by decide,
    c10_amended_pairs [addrA, addrB] ADDRESS_ZERO "1" 1 1 DEFAULT_INTERVAL
      DEFAULT_INTERVAL (fun _ => 1) (fun _ => DEFAULT_INTERVAL) 2 0 0 _ 2 (by decide)
      (fun _ => ⟨Nat.le_refl 1, Nat.le_refl 1⟩) (by decide)⟩

/-- The task parameters after CLI parsing, with the file at `addressesPath`
already split into lines by the readline interface.  `amount` is kept as the
decimal string supplied to the task; the `Option` parameters take the
`?? MAX_BATCH_SIZE` / `?? DEFAULT_INTERVAL` defaults. -/
structure TaskArgs where
  addressLines : List String
  tokenAddress : String
  batcherAddress : String
  amount : String
  tokenNative : Bool
  minBatchSize : Option Nat
  maxBatchSize : Option Nat
  minInterval : Option Nat
  maxInterval : Option Nat

/-- The ledger-client reads the task performs: signer identity, the batcher's
token and native balances, token decimals, and the batcher contract owner. -/
structure Chain where
  senderAddress : String
  batcherOwner : String
  batcherTokenBalance : Nat
  batcherNativeBalance : Nat
  decimals : Nat

def errMinMaxBatch : String := "minBatchSize must be less than or equal to maxBatchSize"

def errMinMaxInterval : String := "minInterval must be less than or equal to maxInterval"

def errMaxBatchCap : String := "maxBatchSize must be less than or equal to 500"

/-- The `RangeError` of `'0'.repeat` with a negative count inside
`formatWithDecimals`. -/
def errRepeatCount : String := "Invalid count value"

/-- The `BigNumber.from` failure on a non-numeric cost string. -/
def errBigNumber : String := "invalid BigNumber string"

def errInsufficient : String := "Batcher address does not have enough tokens to send"

def errNotOwner : String := "Sender is not the owner of the batcher contract"

/-- The task action (lines 45-119), with thrown errors as `Except.error`.
`jsMulToString q a` models `(quantity * amount).toString()` — a JavaScript
binary floating-point product whose rounding is external to this embedding
(for integer values with product below `2^53` it equals the exact product).
An error result carries no events at all, so any error raised by the
preflight checks precedes every batch submission.  The `Option` in the ok
result is the fuel-driven loop: `some` is a completed run. -/
def sendBatchTransfer (args : TaskArgs) (chain : Chain)
    (jsMulToString : Nat → String → String)
    (sizeDraws intDraws : Nat → Nat) (fuel : Nat) :
    Except String (Option (List Event × Nat)) :=
  if (args.maxBatchSize.getD MAX_BATCH_SIZE) < (args.minBatchSize.getD MAX_BATCH_SIZE) then
    Except.error errMinMaxBatch
  else if (args.maxInterval.getD DEFAULT_INTERVAL) < (args.minInterval.getD DEFAULT_INTERVAL) then
    Except.error errMinMaxInterval
  else if MAX_BATCH_SIZE < (args.maxBatchSize.getD MAX_BATCH_SIZE) then
    Except.error errMaxBatchCap
  else
    match formatWithDecimals args.amount chain.decimals with
    | none => Except.error errRepeatCount
    | some amountFormatted =>
      match formatWithDecimals
          (jsMulToString (parseAddressesFile args.addressLines).length args.amount)
          chain.decimals with
      | none => Except.error errRepeatCount
      | some expectedCostStr =>
        match parseDecNat expectedCostStr with
        | none => Except.error errBigNumber
        | some expectedCost =>
          if (if args.tokenNative then chain.batcherNativeBalance
              else chain.batcherTokenBalance) < expectedCost then
            Except.error errInsufficient
          else if chain.batcherOwner ≠ chain.senderAddress then
            Except.error errNotOwner
          else
            Except.ok (runLoop (parseAddressesFile args.addressLines)
              (if args.tokenNative then ADDRESS_ZERO else args.tokenAddress)
              amountFormatted sizeDraws intDraws fuel 0 0)

/-- C4. Once configuration validation and the amount/cost string computations
go through, the task throws the insufficient-funds error exactly when the
funding account's holdings — native balance when `tokenNative`, token balance
otherwise — are strictly below the computed cost `cost` in base units; at the
boundary, holdings equal to `cost` pass this check and holdings of `cost - 1`
throw.  The error result carries no events, and the owner check and loop sit
behind this check, so the error precedes every batch submission. -/
theorem c4_balance_gate (args : TaskArgs) (chain : Chain)
    (jsMulToString : Nat → String → String) (sizeDraws intDraws : Nat → Nat)
    (fuel : Nat) (amountFormatted costStr : String) (cost : Nat)
    (hval : validateConfig (args.minBatchSize.getD MAX_BATCH_SIZE)
      (args.maxBatchSize.getD MAX_BATCH_SIZE) (args.minInterval.getD DEFAULT_INTERVAL)
      (args.maxInterval.getD DEFAULT_INTERVAL) = true)
    (hAmt : formatWithDecimals args.amount chain.decimals = some amountFormatted)
    (hCost : formatWithDecimals
      (jsMulToString (parseAddressesFile args.addressLines).length args.amount)
      chain.decimals = some costStr)
    (hParse : parseDecNat costStr = some cost) :
    (sendBatchTransfer args chain jsMulToString sizeDraws intDraws fuel =
        Except.error errInsufficient ↔
      (if args.tokenNative then chain.batcherNativeBalance
        else chain.batcherTokenBalance) < cost) ∧
    ((if args.tokenNative then chain.batcherNativeBalance
        else chain.batcherTokenBalance) = cost →
      sendBatchTransfer args chain jsMulToString sizeDraws intDraws fuel ≠
        Except.error errInsufficient) ∧
    (1 ≤ cost →
      (if args.tokenNative then chain.batcherNativeBalance
        else chain.batcherTokenBalance) = cost - 1 →
      sendBatchTransfer args chain jsMulToString sizeDraws intDraws fuel =
        Except.error errInsufficient) := by
  simp only [validateConfig, Bool.and_eq_true, Bool.not_eq_true', decide_eq_false_iff_not]
    at hval
  obtain ⟨⟨h1, h2⟩, h3⟩ := hval
  have hstep : sendBatchTransfer args chain jsMulToString sizeDraws intDraws fuel =
      (if (if args.tokenNative then chain.batcherNativeBalance
          else chain.batcherTokenBalance) < cost then
        Except.error errInsufficient
      else if chain.batcherOwner ≠ chain.senderAddress then
        Except.error errNotOwner
      else
        Except.ok (runLoop (parseAddressesFile args.addressLines)
          (if args.tokenNative then ADDRESS_ZERO else args.tokenAddress)
          amountFormatted sizeDraws intDraws fuel 0 0)) := by
    unfold sendBatchTransfer
    rw [if_neg h1, if_neg h2, if_neg h3]
    simp only [hAmt, hCost, hParse]
  refine ⟨?_, ?_, ?_⟩
  · rw [hstep]
    constructor
    · intro h
      by_cases hlt : (if args.tokenNative then chain.batcherNativeBalance
          else chain.batcherTokenBalance) < cost
      · exact hlt
      · rw [if_neg hlt] at h
        by_cases hown : chain.batcherOwner ≠ chain.senderAddress
        · rw [if_pos hown] at h
          injection h with hmsg
          exact absurd hmsg (by decide)
        · rw [if_neg hown] at h
          cases h
    · intro hlt
      rw [if_pos hlt]
  · intro heq
    rw [hstep, if_neg (by omega)]
    by_cases hown : chain.batcherOwner ≠ chain.senderAddress
    · rw [if_pos hown]
      intro h
      injection h with hmsg
      exact absurd hmsg (by decide)
    · rw [if_neg hown]
      intro h
      cases h
  · intro hc1 heq
    rw [hstep, if_pos (by omega)]

/-- Concrete task arguments for the C4 witness: two recipients, amount
`"1.5"`, an ERC-20 (non-native) token, default batch/interval parameters. -/
def argsC4 : TaskArgs :=
  ⟨[addrA, addrB], "0xT", "0xB", "1.5", false, none, none, none, none⟩

/-- Concrete chain state for the C4 witness: 6 decimals, the sender owns the
batcher, and the token balance is exactly the cost `2 × 1.5 × 10^6`. -/
def chainC4 : Chain := ⟨"0xS", "0xS", 3000000, 0, 6⟩

/-- C4 witness: at the exact boundary (balance = cost = 3000000) the check
passes — the insufficient-funds error is equivalent to `3000000 < 3000000`,
which is false. -/
theorem c4_balance_gate_witness :
    validateConfig (argsC4.minBatchSize.getD MAX_BATCH_SIZE)
      (argsC4.maxBatchSize.getD MAX_BATCH_SIZE)
      (argsC4.minInterval.getD DEFAULT_INTERVAL)
      (argsC4.maxInterval.getD DEFAULT_INTERVAL) = true ∧
    formatWithDecimals argsC4.amount chainC4.decimals = some "1500000" ∧
    formatWithDecimals ((fun _ _ => "3") (parseAddressesFile argsC4.addressLines).length
      argsC4.amount) chainC4.decimals = some "3000000" ∧
    parseDecNat "3000000" = some 3000000 ∧
    ((sendBatchTransfer argsC4 chainC4 (fun _ _ => "3") (fun _ => 2)
        (fun _ => DEFAULT_INTERVAL) 1 = Except.error errInsufficient ↔
      (if argsC4.tokenNative then chainC4.batcherNativeBalance
        else chainC4.batcherTokenBalance) < 3000000) ∧
    ((if argsC4.tokenNative then chainC4.batcherNativeBalance
        else chainC4.batcherTokenBalance) = 3000000 →
      sendBatchTransfer argsC4 chainC4 (fun _ _ => "3") (fun _ => 2)
        (fun _ => DEFAULT_INTERVAL) 1 ≠ Except.error errInsufficient) ∧
    (1 ≤ 3000000 →
      (if argsC4.tokenNative then chainC4.batcherNativeBalance
        else chainC4.batcherTokenBalance) = 3000000 - 1 →
      sendBatchTransfer argsC4 chainC4 (fun _ _ => "3") (fun _ => 2)
        (fun _ => DEFAULT_INTERVAL) 1 = Except.error errInsufficient)) :=
  ⟨by decide, by decide, by decide, by decide,
    c4_balance_gate argsC4 chainC4 (fun _ _ => "3") (fun _ => 2)
      (fun _ => DEFAULT_INTERVAL) 1 "1500000" "3000000" 3000000
      (by decide) (by decide) (by decide) (by decide)⟩

/-- C3 (code bug): the expected-cost computation multiplies `quantity` by
`amount` with JavaScript `number` (IEEE-754 binary64) arithmetic before
string scaling: `formatWithDecimals((quantity * amount).toString(), ...)`.
At `quantity = 3`, `amount = 1.1`, doubles give
`(3 * 1.1).toString() = "3.3000000000000003"`; scaling that string by
`10^18` yields 3300000000000000300 base units, not the exact
`3 × (1.1 × 10^18) = 3300000000000000000` the claim requires — the
floating-point residue survives the otherwise-exact string scaling. -/
theorem c3_float_scaling_residue :
    formatWithDecimals "3.3000000000000003" 18 = some "3300000000000000300" ∧
    parseDecNat "3300000000000000300" = some 3300000000000000300 ∧
    (3300000000000000300 : Nat) ≠ 3 * 1100000000000000000 :=
  ⟨by decide, by decide, by decide⟩

end ClearSync
